/-
Verification of the archlinux-userland-fs-cmp pipeline.

This file gives a shallow embedding of the coordinator (src/main.rs), the
mtree manifest parser (src/mtree.rs), the package database lister
(src/pkg.rs) and the disk scanner / hasher pool (src/disk.rs), and proves
or refutes the specified properties about them.

Paths and digests are modelled as Lean strings.  The Rust collection types
are modelled as follows: HashMap becomes an association list with
first-match lookup (the code only ever inserts a key that is absent),
BTreeSet becomes a Finset (iteration order is recovered with Finset.sort),
VecDeque becomes a list with push_back as append, and a oneshot sender
handle is modelled by the one bit observable through it, namely whether
sending on it succeeds (the worker on the other end is still alive).
-/

import Mathlib

set_option linter.unusedVariables false
set_option maxRecDepth 100000

namespace FsCmp

/-- Result of one hashing task, from src/disk.rs (enum HashVerify). -/
inductive HashVerify where
  | Passed (path : String)
  | Flagged (path : String)
deriving DecidableEq, Repr

/-- The event bus message type, from src/main.rs (enum Event).  The
oneshot sender carried by AvailableHasher is modelled by a Bool that
records whether the worker holding the receiving end is still alive. -/
inductive Event where
  | PkgQueued
  | PkgCompleted
  | TrustedFile (path sha256 : String)
  | DiskFile (path : String)
  | DiskPwd (path : String)
  | DiskError (err : String)
  | CompletedListInstalled
  | CompletedDiskScan
  | AvailableHasher (alive : Bool)
  | CompletedHashing (hashed : HashVerify)
deriving DecidableEq, Repr

/-- First-match lookup in an association list; models HashMap::get for the
trusted-hashes map (keys are only ever inserted when absent). -/
def lookupKey (p : String) : List (String × String) → Option String
  | [] => none
  | (q, h) :: rest => if q = p then some h else lookupKey p rest

/-- Coordinator state, from src/main.rs (struct App). -/
structure App where
  num_hash_worker : Nat
  retired_hashers : Nat
  completed_pkgs : Nat
  total_pkgs : Nat
  trusted_hashes : List (String × String)
  running_list_installed : Bool
  running_disk_scan : Bool
  waiting_for_data : Finset String
  waiting_for_hasher : List (String × String)
  available_hashers : List Bool
  files_passed : Nat
  files_flagged : Finset String
  disk_errors : List String
  disk_pwd : Option String
deriving DecidableEq

/-- App::new - all counters zero, both producers marked running. -/
def App.new (num_hash_worker : Nat) : App :=
  { num_hash_worker := num_hash_worker
    retired_hashers := 0
    completed_pkgs := 0
    total_pkgs := 0
    trusted_hashes := []
    running_list_installed := true
    running_disk_scan := true
    waiting_for_data := ∅
    waiting_for_hasher := []
    available_hashers := []
    files_passed := 0
    files_flagged := ∅
    disk_errors := []
    disk_pwd := none }

/-- App::update from src/main.rs.  Returns the new state together with the
redraw flag that the Rust function returns. -/
def App.update (app : App) (event : Event) : App × Bool :=
  match event with
  | .PkgQueued => ({ app with total_pkgs := app.total_pkgs + 1 }, false)
  | .PkgCompleted => ({ app with completed_pkgs := app.completed_pkgs + 1 }, true)
  | .TrustedFile path sha256 =>
    match lookupKey path app.trusted_hashes with
    | some _ => (app, false)
    | none =>
      let app :=
        if path ∈ app.waiting_for_data then
          { app with
            waiting_for_data := app.waiting_for_data.erase path
            waiting_for_hasher := app.waiting_for_hasher ++ [(path, sha256)] }
        else app
      ({ app with trusted_hashes := (path, sha256) :: app.trusted_hashes }, false)
  | .DiskFile path =>
    match lookupKey path app.trusted_hashes with
    | some sha256 =>
      ({ app with waiting_for_hasher := app.waiting_for_hasher ++ [(path, sha256)] }, false)
    | none =>
      ({ app with waiting_for_data := insert path app.waiting_for_data }, false)
  | .DiskPwd path => ({ app with disk_pwd := some path }, false)
  | .DiskError err => ({ app with disk_errors := app.disk_errors ++ [err] }, false)
  | .CompletedListInstalled => ({ app with running_list_installed := false }, true)
  | .CompletedDiskScan =>
    ({ app with running_disk_scan := false, disk_pwd := none }, true)
  | .AvailableHasher hasher =>
    ({ app with available_hashers := app.available_hashers ++ [hasher] }, false)
  | .CompletedHashing hashed =>
    match hashed with
    | .Passed _ => ({ app with files_passed := app.files_passed + 1 }, false)
    | .Flagged path => ({ app with files_flagged := insert path app.files_flagged }, false)

/-- Result of the dispatch while-loop of run (src/main.rs lines 313-320):
the remaining task queue, the remaining handle queue, the tasks that were
fulfilled, and whether the loop ended by an early return because a send
failed (the worker had died). -/
structure DispatchOut where
  waiting : List (String × String)
  avail : List Bool
  sent : List (String × String)
  aborted : Bool
deriving DecidableEq, Repr

/-- The dispatch while-loop of run: while both queues are non-empty, pop a
handle and a task, and fulfill the handle with the task.  If the send
fails the run logs a warning and returns Ok early. -/
def dispatchLoop : List (String × String) → List Bool → DispatchOut
  | task :: tasks, hasher :: hashers =>
    if hasher then
      let r := dispatchLoop tasks hashers
      { r with sent := task :: r.sent }
    else
      { waiting := tasks, avail := hashers, sent := [], aborted := true }
  | tasks, hashers =>
    { waiting := tasks, avail := hashers, sent := [], aborted := false }

/-- Apply the dispatch loop to the App state. -/
def App.dispatch (app : App) : App × List (String × String) × Bool :=
  let r := dispatchLoop app.waiting_for_hasher app.available_hashers
  ({ app with waiting_for_hasher := r.waiting, available_hashers := r.avail },
   r.sent, r.aborted)

/-- The retirement while-loop of run (src/main.rs lines 322-329): while a
handle is available, no task is queued, the disk scan has completed and
all queued packages have completed, drop one handle and count it retired.
The loop body only pops a handle and increments the counter, so the other
three conditions are loop-invariant and are passed as constant flags.
Note the loop condition does not consult running_list_installed. -/
def retireLoop (waitingEmpty scanDone pkgsDone : Bool) :
    List Bool → Nat → List Bool × Nat
  | [], retired => ([], retired)
  | hasher :: hashers, retired =>
    if waitingEmpty && scanDone && pkgsDone then
      retireLoop waitingEmpty scanDone pkgsDone hashers (retired + 1)
    else (hasher :: hashers, retired)

/-- Apply the retirement loop to the App state. -/
def App.retireStep (app : App) : App :=
  let r := retireLoop app.waiting_for_hasher.isEmpty (!app.running_disk_scan)
      (app.completed_pkgs == app.total_pkgs) app.available_hashers app.retired_hashers
  { app with available_hashers := r.1, retired_hashers := r.2 }

/-- Outcome of one iteration of the event loop in run: either the loop
continues with a new state, or run returned early with the given result. -/
inductive RunStep where
  | continued (app : App)
  | returnedEarly (result : Except String Unit)

/-- One iteration of the event loop of run for a received event: update,
then the dispatch loop (early Ok return if a hasher died), then the
retirement loop. -/
def runLoopStep (app : App) (event : Event) : RunStep :=
  let app1 := (app.update event).1
  let d := app1.dispatch
  if d.2.2 then .returnedEarly (Except.ok ())
  else .continued d.1.retireStep

/-- Exit code of the process for the Result that fn main returns: Ok exits
with 0, Err with a non-zero code. -/
def exitCodeOfResult : Except String Unit → Nat
  | .ok _ => 0
  | .error _ => 1

/-- If the dispatch loop ended with a failed send, some handle in the
queue was dead. -/
theorem dispatchLoop_aborted_mem (tasks : List (String × String)) (hashers : List Bool)
    (h : (dispatchLoop tasks hashers).aborted = true) : false ∈ hashers := by
  induction tasks generalizing hashers with
  | nil => simp [dispatchLoop] at h
  | cons t ts ih =>
    cases hashers with
    | nil => simp [dispatchLoop] at h
    | cons hs hss =>
      by_cases halive : hs
      · subst halive
        simp only [dispatchLoop, if_pos rfl] at h
        exact List.mem_cons_of_mem _ (ih hss h)
      · simp_all

/-- C6: when a TrustedFile event arrives for a path that already has a
trusted digest, the duplicate is ignored: the whole App state (trusted
map and pending sets included) is unchanged, and a later DiskFile event
for that path enqueues the file for hashing against the first digest. -/
theorem c6_duplicate_trusted_keeps_first (app : App) (p h h₀ : String)
    (hdup : lookupKey p app.trusted_hashes = some h₀) :
    app.update (.TrustedFile p h) = (app, false) ∧
    ((app.update (.DiskFile p)).1).waiting_for_hasher
      = app.waiting_for_hasher ++ [(p, h₀)] := by
  constructor
  · simp [App.update, hdup]
  · simp [App.update, hdup]

/-- App state holding one trusted digest for path p, for the C6 witness. -/
def appWithTrusted : App :=
  { App.new 1 with trusted_hashes := [("p", "h0")] }

/-- Witness for C6 at a concrete state: the duplicate digest h1 is ignored
and hashing is enqueued against the first digest h0. -/
theorem c6_duplicate_trusted_keeps_first_witness :
    appWithTrusted.update (.TrustedFile "p" "h1") = (appWithTrusted, false) ∧
    ((appWithTrusted.update (.DiskFile "p")).1).waiting_for_hasher
      = appWithTrusted.waiting_for_hasher ++ [("p", "h0")] :=
  c6_duplicate_trusted_keeps_first appWithTrusted "p" "h1" "h0" (by decide)

/-- App state with one queued task and a single dead hasher handle, for
the C2 theorems. -/
def appDeadHasher : App :=
  { App.new 1 with waiting_for_hasher := [("p", "h")], available_hashers := [false] }

/-- C2 counterexample: at a state where the only available hasher handle
is dead and a task is queued, the next loop iteration hits the failed
send and run returns Ok, so the process exit code is 0 and not non-zero
as the claim states. -/
theorem c2_counterexample :
    ((appDeadHasher.update Event.PkgQueued).1.dispatch.2.2 = true) ∧
    runLoopStep appDeadHasher Event.PkgQueued = .returnedEarly (Except.ok ()) ∧
    exitCodeOfResult (Except.ok ()) = 0 :=
  ⟨rfl, rfl, rfl⟩

/-- C2 amended: when fulfilling a dispatched task fails because the
worker died, the run aborts (the event loop returns early, with the
diagnostic warning) but the returned result is Ok, so the process exits
with code 0, not a non-zero code.  The failed send indeed means a dead
handle was in the queue. -/
theorem c2_hasher_lost_aborts_with_exit_zero (app : App) (event : Event)
    (h : ((app.update event).1.dispatch).2.2 = true) :
    runLoopStep app event = .returnedEarly (Except.ok ()) ∧
    exitCodeOfResult (Except.ok ()) = 0 ∧
    false ∈ (app.update event).1.available_hashers := by
  refine ⟨?_, rfl, ?_⟩
  · simp only [runLoopStep, h, if_true]
  · exact dispatchLoop_aborted_mem _ _ h

/-- Witness for C2 at the concrete dead-hasher state. -/
theorem c2_hasher_lost_aborts_with_exit_zero_witness :
    runLoopStep appDeadHasher Event.PkgQueued = .returnedEarly (Except.ok ()) ∧
    exitCodeOfResult (Except.ok ()) = 0 ∧
    false ∈ (appDeadHasher.update Event.PkgQueued).1.available_hashers :=
  c2_hasher_lost_aborts_with_exit_zero appDeadHasher Event.PkgQueued rfl

/-- When the three loop-invariant conditions hold, the retirement loop
drains the whole handle queue. -/
theorem retireLoop_drains (hashers : List Bool) (retired : Nat) :
    retireLoop true true true hashers retired = ([], retired + hashers.length) := by
  induction hashers generalizing retired with
  | nil => simp [retireLoop]
  | cons hs hss ih => simp [retireLoop, ih]; omega

/-- When one of the three conditions fails, the retirement loop does
nothing. -/
theorem retireLoop_stuck (waitingEmpty scanDone pkgsDone : Bool)
    (hashers : List Bool) (retired : Nat)
    (h : (waitingEmpty && scanDone && pkgsDone) = false) :
    retireLoop waitingEmpty scanDone pkgsDone hashers retired = (hashers, retired) := by
  cases hashers with
  | nil => simp [retireLoop]
  | cons hs hss => simp [retireLoop, h]

/-- C5 amended: the retirement step is gated exactly on the four
conditions in the code - available handle, empty task queue, disk scan
completed, completed_pkgs = total_pkgs - and not on whether the
installed-package listing has completed; when the conditions hold it
drains all available handles. -/
theorem c5_retire_gating (app : App) :
    app.retireStep =
      if app.waiting_for_hasher.isEmpty ∧ ¬app.running_disk_scan
          ∧ app.completed_pkgs = app.total_pkgs then
        { app with available_hashers := [],
                   retired_hashers := app.retired_hashers + app.available_hashers.length }
      else app := by
  by_cases hc : app.waiting_for_hasher.isEmpty ∧ ¬app.running_disk_scan
      ∧ app.completed_pkgs = app.total_pkgs
  · obtain ⟨h1, h2, h3⟩ := hc
    have hb2 : (!app.running_disk_scan) = true := by simp [h2]
    have hb3 : (app.completed_pkgs == app.total_pkgs) = true := by simp [h3]
    rw [if_pos ⟨h1, h2, h3⟩]
    simp only [App.retireStep, h1, hb2, hb3, retireLoop_drains]
  · have hb : (app.waiting_for_hasher.isEmpty && !app.running_disk_scan
        && (app.completed_pkgs == app.total_pkgs)) = false := by
      by_contra hb
      apply hc
      simp only [Bool.not_eq_false, Bool.and_eq_true, Bool.not_eq_true', beq_iff_eq] at hb
      exact ⟨hb.1.1, by simp [hb.1.2], hb.2⟩
    simp only [App.retireStep, retireLoop_stuck _ _ _ _ _ hb, if_neg hc]

/-- State reached from a fresh App by an AvailableHasher event and a
CompletedDiskScan event, before any package or CompletedListInstalled
event: the listing is still running yet retirement fires. -/
def appRetireRace : App :=
  (((App.new 1).update (.AvailableHasher true)).1.update .CompletedDiskScan).1

/-- C5 counterexample: at appRetireRace the installed-package listing is
still running and CompletedListInstalled has not been observed, yet the
retirement step drops the available hasher handle and counts it retired,
contradicting the claim that retirement never runs before the listing
has completed. -/
theorem c5_counterexample :
    appRetireRace.running_list_installed = true ∧
    appRetireRace.available_hashers = [true] ∧
    appRetireRace.retireStep.retired_hashers = 1 ∧
    appRetireRace.retireStep.available_hashers = [] :=
  ⟨rfl, rfl, rfl, rfl⟩

namespace Mtree

/-- Payload of a regular-file manifest entry, from src/mtree.rs (struct
File).  Sizes are u64 in the source; values here are the naturals below
2^64 that parse accepts. -/
structure File where
  size : Nat
  md5digest : Option String
  sha256digest : String
deriving DecidableEq, Repr

/-- Payload of a link manifest entry, from src/mtree.rs (struct Link). -/
structure Link where
  mode : String
  link : String
deriving DecidableEq, Repr

/-- Manifest entry content, from src/mtree.rs (enum EntryType; the empty
Directory struct is modelled as a plain constructor). -/
inductive EntryType where
  | File (f : File)
  | Directory
  | Link (l : Link)
deriving DecidableEq, Repr

/-- A parsed manifest entry, from src/mtree.rs (struct Entry). -/
structure Entry where
  path : String
  time : String
  content : EntryType
deriving DecidableEq, Repr

end Mtree

/-- str::starts_with with a char pattern. -/
def startsWithChar (s : String) (c : Char) : Bool :=
  match s.data with
  | x :: _ => x == c
  | [] => false

/-- str::split_once with a char pattern, on character lists: split at the
first occurrence of the separator; none when it does not occur. -/
def splitOnceChar (sep : Char) : List Char → Option (List Char × List Char)
  | [] => none
  | x :: xs =>
    if x = sep then some ([], xs)
    else match splitOnceChar sep xs with
      | none => none
      | some (a, b) => some (x :: a, b)

/-- str::split with a char pattern, on character lists: the list of
pieces between separators, with empty pieces kept. -/
def splitChar (sep : Char) : List Char → List (List Char)
  | [] => [[]]
  | x :: xs =>
    let r := splitChar sep xs
    if x = sep then [] :: r
    else match r with
      | [] => [[x]]
      | y :: ys => (x :: y) :: ys

/-- str::split_once with a char pattern, at the String interface. -/
def strSplitOnce (s : String) (sep : Char) : Option (String × String) :=
  match splitOnceChar sep s.data with
  | none => none
  | some (a, b) => some (⟨a⟩, ⟨b⟩)

/-- str::split with a char pattern, at the String interface. -/
def strSplitChar (s : String) (sep : Char) : List String :=
  (splitChar sep s.data).map (⟨·⟩)

/-- Value of a decimal digit character. -/
def digitVal? (c : Char) : Option Nat :=
  if c.isDigit then some (c.toNat - 48) else none

/-- Decimal digits to a natural number; none on an empty list or a
non-digit. -/
def digitsToNat? (l : List Char) : Option Nat :=
  if l.isEmpty then none
  else l.foldl (fun acc c =>
    match acc, digitVal? c with
    | some a, some d => some (a * 10 + d)
    | _, _ => none) (some 0)

namespace Mtree

/-- u64::from_str - an optional leading plus sign, then decimal digits,
value below 2^64. -/
def parseU64 (s : String) : Option Nat :=
  let l := match s.data with
    | '+' :: rest => rest
    | l => l
  match digitsToNat? l with
  | some n => if n < 18446744073709551616 then some n else none
  | none => none

/-- The seven mutable Option locals of parse in src/mtree.rs. -/
structure RawMeta where
  time : Option String := none
  size : Option Nat := none
  md5digest : Option String := none
  sha256digest : Option String := none
  mode : Option String := none
  t : Option String := none
  link : Option String := none
deriving DecidableEq, Repr

/-- The key=value loop of parse: later values overwrite earlier ones,
unknown keys are ignored, tokens without = are ignored, and a size value
that fails to parse as u64 aborts the whole line (the question-mark
operator returns None from parse). -/
def scanMeta : List String → RawMeta → Option RawMeta
  | [], m => some m
  | md :: rest, m =>
    match strSplitOnce md '=' with
    | none => scanMeta rest m
    | some (key, value) =>
      if key = "time" then scanMeta rest { m with time := some value }
      else if key = "size" then
        match parseU64 value with
        | some v => scanMeta rest { m with size := some v }
        | none => none
      else if key = "md5digest" then scanMeta rest { m with md5digest := some value }
      else if key = "sha256digest" then scanMeta rest { m with sha256digest := some value }
      else if key = "mode" then scanMeta rest { m with mode := some value }
      else if key = "type" then scanMeta rest { m with t := some value }
      else if key = "link" then scanMeta rest { m with link := some value }
      else scanMeta rest m

/-- parse from src/mtree.rs: lines not starting with a dot are ignored,
the line splits into a path and space-separated key=value metadata, the
content is dispatched on the type key, and every entry (directories
included) requires a time key at the end. -/
def parse (line : String) : Option Entry :=
  if ¬ startsWithChar line '.' then none
  else match strSplitOnce line ' ' with
  | none => none
  | some (path, metadata) =>
    match scanMeta (strSplitChar metadata ' ') {} with
    | none => none
    | some m =>
      let content? : Option EntryType :=
        match m.t with
        | none =>
          match m.size, m.sha256digest with
          | some size, some sha => some (.File ⟨size, m.md5digest, sha⟩)
          | _, _ => none
        | some "dir" => some .Directory
        | some "link" =>
          match m.mode, m.link with
          | some mode, some link => some (.Link ⟨mode, link⟩)
          | _, _ => none
        | some _ => none
      match content?, m.time with
      | some content, some time => some ⟨path, time, content⟩
      | _, _ => none

end Mtree

/-- C7 counterexample: a manifest line that begins with a dot and carries
a type=dir pair but no time key is dropped by parse, so a directory line
can be dropped for a missing field. -/
theorem c7_counterexample :
    startsWithChar "./x type=dir" '.' = true ∧
    (strSplitChar "type=dir" ' ').contains "type=dir" = true ∧
    Mtree.parse "./x type=dir" = none := by
  refine ⟨by decide, by decide, by decide⟩

/-- C7 amended: a line beginning with a dot whose metadata scan succeeds
and yields type dir produces a directory entry exactly when a time key
was present; without time the line is dropped. -/
theorem c7_dir_entry_requires_time (line path metadata : String) (m : Mtree.RawMeta)
    (h0 : startsWithChar line '.' = true)
    (h1 : strSplitOnce line ' ' = some (path, metadata))
    (h2 : Mtree.scanMeta (strSplitChar metadata ' ') {} = some m)
    (h3 : m.t = some "dir") :
    (∀ τ, m.time = some τ → Mtree.parse line = some ⟨path, τ, .Directory⟩) ∧
    (m.time = none → Mtree.parse line = none) := by
  constructor
  · intro τ hτ
    simp [Mtree.parse, h0, h1, h2, h3, hτ]
  · intro hτ
    simp [Mtree.parse, h0, h1, h2, h3, hτ]

/-- Witness for C7 on the directory sample line from the tests in
src/mtree.rs. -/
theorem c7_dir_entry_requires_time_witness :
    (∀ τ, ({ time := some "1704931316.0", t := some "dir" } : Mtree.RawMeta).time = some τ →
      Mtree.parse "./usr/lib/signal-desktop time=1704931316.0 type=dir"
        = some ⟨"./usr/lib/signal-desktop", τ, .Directory⟩) ∧
    (({ time := some "1704931316.0", t := some "dir" } : Mtree.RawMeta).time = none →
      Mtree.parse "./usr/lib/signal-desktop time=1704931316.0 type=dir" = none) :=
  c7_dir_entry_requires_time "./usr/lib/signal-desktop time=1704931316.0 type=dir"
    "./usr/lib/signal-desktop" "time=1704931316.0 type=dir"
    { time := some "1704931316.0", t := some "dir" }
    (by decide) (by decide) (by decide) (by decide)

namespace Pkg

/-- An installed package, from src/pkg.rs (struct Package). -/
structure Package where
  name : String
  version : String
  arch : String
deriving DecidableEq, Repr

/-- str::split with the two-character separator of two newlines,
leftmost-first and non-overlapping, used to cut a desc file into
sections. -/
def splitOnDoubleNl : List Char → List (List Char)
  | [] => [[]]
  | '\n' :: '\n' :: rest => [] :: splitOnDoubleNl rest
  | x :: xs =>
    match splitOnDoubleNl xs with
    | [] => [[x]]
    | y :: ys => (x :: y) :: ys

/-- One iteration of the section loop of list_installed in src/pkg.rs: a
section whose lines are exactly a recognized header and one value line
assigns the corresponding local; anything else is ignored. -/
def applySection (acc : Option String × Option String × Option String)
    (sectionLines : List String) :
    Option String × Option String × Option String :=
  match sectionLines with
  | ["%NAME%", v] => (some v, acc.2.1, acc.2.2)
  | ["%VERSION%", v] => (acc.1, some v, acc.2.2)
  | ["%ARCH%", v] => (acc.1, acc.2.1, some v)
  | _ => acc

/-- The desc-parsing part of list_installed: split into sections on blank
lines, fold the recognized headers, and produce a Package only when all
three of name, version and arch were seen. -/
def parseDesc (desc : String) : Option Package :=
  let sections := (splitOnDoubleNl desc.data).map (fun sec => strSplitChar ⟨sec⟩ '\n')
  match sections.foldl applySection (none, none, none) with
  | (some name, some version, some arch) => some ⟨name, version, arch⟩
  | _ => none

/-- One item yielded by the async_walkdir walk inside list_installed: an
Err from the walk itself, or a directory entry with the outcome of its
file_type() call (the Bool is is_dir), its file name, and the outcome of
reading it (queried only for files named desc). -/
inductive WalkEntry where
  | errEntry (msg : String)
  | entry (path : String) (fileType : Except String Bool) (fileName : String)
      (content : Except String String)

/-- list_installed from src/pkg.rs as the sequence of Result items its
stream yields.  The question-mark operator inside the async_stream macro
yields the error and then returns, so any walk error, file-type error or
desc read error is the last item: the stream terminates and no later
entry is examined.  Directories, files not named desc, and desc files
missing one of the three headers are skipped and the walk continues. -/
def list_installed : List WalkEntry → List (Except String Package)
  | [] => []
  | .errEntry msg :: _ => [.error ("Failed to read from pacman database: " ++ msg)]
  | .entry path ft name content :: rest =>
    match ft with
    | .error msg => [.error ("Failed to determine file type of " ++ path ++ ": " ++ msg)]
    | .ok isDir =>
      if isDir then list_installed rest
      else if name ≠ "desc" then list_installed rest
      else match content with
        | .error msg => [.error ("Failed to read file " ++ path ++ ": " ++ msg)]
        | .ok desc =>
          match parseDesc desc with
          | some pkg => .ok pkg :: list_installed rest
          | none => list_installed rest

/-- The consumer loop of spawn_list_installed in src/pkg.rs: each Ok item
emits PkgQueued and forwards the Package to the fetcher channel, each Err
item is only logged, and CompletedListInstalled is emitted when the
stream ends. -/
def consumeListed : List (Except String Package) → List Event × List Package
  | [] => ([.CompletedListInstalled], [])
  | .ok pkg :: rest =>
    let r := consumeListed rest
    (.PkgQueued :: r.1, pkg :: r.2)
  | .error _ :: rest => consumeListed rest

/-- spawn_list_installed: the events it sends on the bus and the packages
it forwards, for a given sequence of walk items. -/
def spawn_list_installed (entries : List WalkEntry) : List Event × List Package :=
  consumeListed (list_installed entries)

end Pkg

/-- A well-formed desc file, used in the C3 counterexample. -/
def goodDesc : String := "%NAME%\nfoo\n\n%VERSION%\n1.0\n\n%ARCH%\nx86_64"

/-- Walk items where the first desc file fails to read and a later desc
file is well formed, used in the C3 counterexample. -/
def c3Entries : List Pkg.WalkEntry :=
  [.entry "/var/lib/pacman/local/a-1/desc" (.ok false) "desc" (.error "permission denied"),
   .entry "/var/lib/pacman/local/b-1/desc" (.ok false) "desc" (.ok goodDesc)]

/-- C3 counterexample: a failing desc read does not merely skip that
package - it ends the stream, so the later well-formed desc file yields
no Package at all and nothing is forwarded to the fetchers. -/
theorem c3_counterexample :
    Pkg.parseDesc goodDesc = some ⟨"foo", "1.0", "x86_64"⟩ ∧
    Pkg.list_installed c3Entries
      = [.error "Failed to read file /var/lib/pacman/local/a-1/desc: permission denied"] ∧
    (Pkg.spawn_list_installed c3Entries).2 = [] :=
  ⟨rfl, rfl, rfl⟩

/-- C3 amended: a desc file that reads but fails to parse is skipped and
the walk continues, but a desc read error terminates the whole walk (no
later entry is examined), and the component still emits only
CompletedListInstalled afterwards. -/
theorem c3_desc_error_stops_walk (path content msg : String) (rest : List Pkg.WalkEntry)
    (hparse : Pkg.parseDesc content = none) :
    Pkg.list_installed (.entry path (.ok false) "desc" (.ok content) :: rest)
      = Pkg.list_installed rest ∧
    Pkg.list_installed (.entry path (.ok false) "desc" (.error msg) :: rest)
      = [.error ("Failed to read file " ++ path ++ ": " ++ msg)] ∧
    (Pkg.spawn_list_installed (.entry path (.ok false) "desc" (.error msg) :: rest)).1
      = [.CompletedListInstalled] := by
  refine ⟨?_, rfl, rfl⟩
  simp [Pkg.list_installed, hparse]

/-- Witness for C3 with a desc file missing two headers. -/
theorem c3_desc_error_stops_walk_witness :
    Pkg.list_installed (.entry "/p/desc" (.ok false) "desc" (.ok "%NAME%\nfoo") :: [])
      = Pkg.list_installed [] ∧
    Pkg.list_installed (.entry "/p/desc" (.ok false) "desc" (.error "denied") :: [])
      = [.error ("Failed to read file " ++ "/p/desc" ++ ": " ++ "denied")] ∧
    (Pkg.spawn_list_installed (.entry "/p/desc" (.ok false) "desc" (.error "denied") :: [])).1
      = [.CompletedListInstalled] :=
  c3_desc_error_stops_walk "/p/desc" "%NAME%\nfoo" "denied" [] rfl

/-- File type of a visited entry as observable through the two queries
the scanner makes (std::fs::FileType::is_dir and is_symlink); the walk
does not follow links, so exactly one variant applies. -/
inductive FileType where
  | dir
  | symlink
  | regular
  | charDevice
  | blockDevice
  | fifo
  | socket
deriving DecidableEq, Repr

/-- FileType::is_dir. -/
def FileType.is_dir : FileType → Bool
  | .dir => true
  | _ => false

/-- FileType::is_symlink. -/
def FileType.is_symlink : FileType → Bool
  | .symlink => true
  | _ => false

/-- Classification of one visited entry by the walk loop of spawn_scan
(src/disk.rs lines 117-130): a directory becomes DiskPwd, a symlink is
skipped, and anything else falls into the final else branch and becomes
DiskFile. -/
def classifyEntry (path : String) (stat : FileType) : Option Event :=
  if stat.is_dir then some (.DiskPwd path)
  else if stat.is_symlink then none
  else some (.DiskFile path)

/-- C4 counterexample: a block device (neither directory nor symlink) is
not skipped - the scanner emits DiskFile for it, contrary to the claim
that every other file type emits no event. -/
theorem c4_counterexample :
    classifyEntry "/dev/sda" .blockDevice = some (.DiskFile "/dev/sda") ∧
    classifyEntry "/dev/sda" .blockDevice ≠ none := by
  refine ⟨rfl, by decide⟩

/-- C4 amended: classification is by file type, with directories emitting
DiskPwd, symlinks skipped silently, and every non-directory non-symlink
entry - regular files but also device nodes, FIFOs and sockets - emitting
DiskFile. -/
theorem c4_classification (path : String) (stat : FileType) :
    (classifyEntry path stat = some (.DiskPwd path) ↔ stat = .dir) ∧
    (classifyEntry path stat = none ↔ stat = .symlink) ∧
    (classifyEntry path stat = some (.DiskFile path) ↔ (stat ≠ .dir ∧ stat ≠ .symlink)) := by
  cases stat <;> simp [classifyEntry, FileType.is_dir, FileType.is_symlink]

/-- Truncation to a 32-bit word. -/
def w32 (n : Nat) : Nat := n % 4294967296

/-- Right rotation of a 32-bit word. -/
def rotr32 (x n : Nat) : Nat := w32 ((x >>> n) ||| (x <<< (32 - n)))

/-- SHA-256 choice function. -/
def shaCh (x y z : Nat) : Nat := (x &&& y) ^^^ ((x ^^^ 4294967295) &&& z)

/-- SHA-256 majority function. -/
def shaMaj (x y z : Nat) : Nat := (x &&& y) ^^^ (x &&& z) ^^^ (y &&& z)

/-- SHA-256 big sigma 0. -/
def bigSigma0 (x : Nat) : Nat := rotr32 x 2 ^^^ rotr32 x 13 ^^^ rotr32 x 22

/-- SHA-256 big sigma 1. -/
def bigSigma1 (x : Nat) : Nat := rotr32 x 6 ^^^ rotr32 x 11 ^^^ rotr32 x 25

/-- SHA-256 small sigma 0. -/
def smallSigma0 (x : Nat) : Nat := rotr32 x 7 ^^^ rotr32 x 18 ^^^ (x >>> 3)

/-- SHA-256 small sigma 1. -/
def smallSigma1 (x : Nat) : Nat := rotr32 x 17 ^^^ rotr32 x 19 ^^^ (x >>> 10)

/-- The 64 SHA-256 round constants, written in decimal. -/
def sha256K : List Nat :=
  [1116352408, 1899447441, 3049323471, 3921009573, 961987163,
   1508970993, 2453635748, 2870763221, 3624381080, 310598401,
   607225278, 1426881987, 1925078388, 2162078206, 2614888103,
   3248222580, 3835390401, 4022224774, 264347078, 604807628,
   770255983, 1249150122, 1555081692, 1996064986, 2554220882,
   2821834349, 2952996808, 3210313671, 3336571891, 3584528711,
   113926993, 338241895, 666307205, 773529912, 1294757372,
   1396182291, 1695183700, 1986661051, 2177026350, 2456956037,
   2730485921, 2820302411, 3259730800, 3345764771, 3516065817,
   3600352804, 4094571909, 275423344, 430227734, 506948616,
   659060556, 883997877, 958139571, 1322822218, 1537002063,
   1747873779, 1955562222, 2024104815, 2227730452, 2361852424,
   2428436474, 2756734187, 3204031479, 3329325298]

/-- The eight SHA-256 initial hash words, written in decimal. -/
def sha256H0 : List Nat :=
  [1779033703, 3144134277, 1013904242, 2773480762, 1359893119,
   2600822924, 528734635, 1541459225]

/-- A 64-bit value as eight big-endian bytes. -/
def be64 (n : Nat) : List Nat :=
  [(n >>> 56) % 256, (n >>> 48) % 256, (n >>> 40) % 256, (n >>> 32) % 256,
   (n >>> 24) % 256, (n >>> 16) % 256, (n >>> 8) % 256, n % 256]

/-- A 32-bit word as four big-endian bytes. -/
def be32 (n : Nat) : List Nat :=
  [(n >>> 24) % 256, (n >>> 16) % 256, (n >>> 8) % 256, n % 256]

/-- SHA-256 message padding: a 0x80 byte, zeros to 56 mod 64, then the
bit length as a big-endian 64-bit value. -/
def sha256Pad (msg : List Nat) : List Nat :=
  msg ++ 128 :: List.replicate ((119 - msg.length % 64) % 64) 0 ++ be64 (msg.length * 8)

/-- Big-endian bytes to 32-bit words, four at a time. -/
def bytesToWords : List Nat → List Nat
  | a :: b :: c :: d :: rest => (((a * 256 + b) * 256 + c) * 256 + d) :: bytesToWords rest
  | _ => []

/-- Recursion worker for chunksOf: the fuel is an upper bound on the list
length, so that each chunk consumes at least one element and the
recursion is structural (and hence evaluates inside the kernel). -/
def chunksOfAux (n : Nat) : Nat → List α → List (List α)
  | _, [] => []
  | 0, l => [l]
  | fuel + 1, x :: xs =>
    match n with
    | 0 => [x :: xs]
    | m + 1 => (x :: xs).take (m + 1) :: chunksOfAux n fuel ((x :: xs).drop (m + 1))

/-- A list cut into consecutive chunks of at most n elements; models the
read loop that consumes a stream buffer by buffer. -/
def chunksOf (n : Nat) (l : List α) : List (List α) := chunksOfAux n l.length l

/-- Fuel-general form of the chunk concatenation identity. -/
theorem chunksOfAux_flatten (n : Nat) (fuel : Nat) (l : List α)
    (hfuel : l.length ≤ fuel) : (chunksOfAux n fuel l).flatten = l := by
  induction fuel generalizing l with
  | zero =>
    cases l with
    | nil => simp [chunksOfAux]
    | cons x xs => simp at hfuel
  | succ fuel ih =>
    cases l with
    | nil => simp [chunksOfAux]
    | cons x xs =>
      cases n with
      | zero => simp [chunksOfAux]
      | succ m =>
        simp only [chunksOfAux, List.flatten_cons]
        rw [ih _ (by simp [List.length_drop] at *; omega)]
        exact List.take_append_drop _ _

/-- Concatenating the chunks gives back the original list: the chunked
read loop feeds the hasher exactly the file contents. -/
theorem chunksOf_flatten (n : Nat) (l : List α) : (chunksOf n l).flatten = l :=
  chunksOfAux_flatten n l.length l le_rfl

/-- Left fold of list append equals prepending to the concatenation. -/
theorem foldl_append_eq_flatten (ls : List (List α)) (a : List α) :
    ls.foldl (fun acc chunk => acc ++ chunk) a = a ++ ls.flatten := by
  induction ls generalizing a with
  | nil => simp
  | cons x xs ih => simp [ih, List.append_assoc]

/-- SHA-256 message schedule: the 16 block words extended to 64. -/
def sha256Schedule (block : List Nat) : Array Nat :=
  (List.range 48).foldl (fun w j =>
    let i := j + 16
    w.push (w32 (smallSigma1 (w.getD (i - 2) 0) + w.getD (i - 7) 0
      + smallSigma0 (w.getD (i - 15) 0) + w.getD (i - 16) 0))) block.toArray

/-- One SHA-256 round on the eight-word working state. -/
def sha256Round (st : List Nat) (kw : Nat) : List Nat :=
  match st with
  | [a, b, c, d, e, f, g, h] =>
    let t1 := h + bigSigma1 e + shaCh e f g + kw
    let t2 := bigSigma0 a + shaMaj a b c
    [w32 (t1 + t2), a, b, c, w32 (d + t1), e, f, g]
  | st => st

/-- SHA-256 compression of one 16-word block into the hash state. -/
def sha256Compress (hs : List Nat) (block : List Nat) : List Nat :=
  let w := sha256Schedule block
  let final := (List.range 64).foldl
    (fun st i => sha256Round st (sha256K.getD i 0 + w.getD i 0)) hs
  List.zipWith (fun x y => w32 (x + y)) hs final

/-- SHA-256 of a byte list, as the 32 digest bytes.  This models the sha2
crate digest used by verify_file in src/disk.rs. -/
def sha256 (msg : List Nat) : List Nat :=
  let blocks := (chunksOf 64 (sha256Pad msg)).map bytesToWords
  (blocks.foldl sha256Compress sha256H0).foldr (fun w acc => be32 w ++ acc) []

/-- Value of one hexadecimal digit character, as in the hex crate. -/
def hexVal (c : Char) : Option Nat :=
  if '0' ≤ c ∧ c ≤ '9' then some (c.toNat - 48)
  else if 'a' ≤ c ∧ c ≤ 'f' then some (c.toNat - 97 + 10)
  else if 'A' ≤ c ∧ c ≤ 'F' then some (c.toNat - 65 + 10)
  else none

/-- hex::decode on a character list: pairs of hex digits to bytes; an odd
length or a non-hex character fails. -/
def hexDecodeChars : List Char → Option (List Nat)
  | [] => some []
  | [_] => none
  | a :: b :: rest =>
    match hexVal a, hexVal b, hexDecodeChars rest with
    | some x, some y, some tail => some ((x * 16 + y) :: tail)
    | _, _, _ => none

/-- hex::decode at the String interface. -/
def decode_hex (s : String) : Option (List Nat) := hexDecodeChars s.data

/-- verify_file from src/disk.rs.  The filesystem is modelled as a map
from path to contents, with none when opening or reading fails; the sha2
hasher is modelled by the byte stream it has been fed (update appends,
finalize hashes the accumulated stream), and the file is fed to it in
chunks of 2048 bytes.  Opening happens before the hex decode, as in the
source. -/
def verify_file (fs : String → Option (List Nat)) (path : String) (sha256hex : String) :
    Except String Bool :=
  match fs path with
  | none => .error ("Failed to open or read " ++ path)
  | some content =>
    match decode_hex sha256hex with
    | none => .error ("Failed to decode sha256 as hex: " ++ sha256hex)
    | some expected =>
      let stream := (chunksOf 2048 content).foldl (fun acc chunk => acc ++ chunk) []
      let calculated := sha256 stream
      if expected = calculated then .ok true else .ok false

/-- The hasher worker body of spawn_scan in src/disk.rs: run verify_file
on the dispatched task and turn the outcome into the bus event. -/
def hasherRun (fs : String → Option (List Nat)) (path sha256hex : String) : Event :=
  match verify_file fs path sha256hex with
  | .ok true => .CompletedHashing (.Passed path)
  | .ok false => .CompletedHashing (.Flagged path)
  | .error err => .DiskError ("Failed to read file from disk " ++ path ++ ": " ++ err)

/-- C8: with readable contents, the worker emits Passed exactly when the
digest hex-decodes to the SHA-256 of the contents, Flagged exactly when
it hex-decodes to something else, and DiskError exactly when the hex
decode fails; an open or read failure also gives DiskError; and a
zero-byte file passes exactly when the digest is the SHA-256 of the
empty byte string. -/
theorem c8_hasher_verifies_sha256 (fs : String → Option (List Nat)) (p d : String) :
    (fs p = none → ∃ msg, hasherRun fs p d = .DiskError msg) ∧
    (∀ content, fs p = some content →
      (hasherRun fs p d = .CompletedHashing (.Passed p) ↔
        decode_hex d = some (sha256 content)) ∧
      (hasherRun fs p d = .CompletedHashing (.Flagged p) ↔
        ∃ e, decode_hex d = some e ∧ e ≠ sha256 content) ∧
      ((∃ msg, hasherRun fs p d = .DiskError msg) ↔ decode_hex d = none) ∧
      (content = [] →
        (hasherRun fs p d = .CompletedHashing (.Passed p) ↔
          decode_hex d = some (sha256 [])))) := by
  constructor
  · intro hnone
    exact ⟨"Failed to read file from disk " ++ p ++ ": " ++ ("Failed to open or read " ++ p),
      by simp [hasherRun, verify_file, hnone]⟩
  · intro content hsome
    have hstream : (chunksOf 2048 content).foldl (fun acc chunk => acc ++ chunk) ([] : List Nat)
        = content := by
      rw [foldl_append_eq_flatten, chunksOf_flatten, List.nil_append]
    refine ⟨?_, ?_, ?_, ?_⟩
    · constructor
      · intro hev
        cases hd : decode_hex d with
        | none => simp [hasherRun, verify_file, hsome, hd] at hev
        | some e =>
          by_cases he : e = sha256 content
          · exact congrArg some he
          · simp [hasherRun, verify_file, hsome, hd, hstream, he] at hev
      · intro hd
        simp [hasherRun, verify_file, hsome, hd, hstream]
    · constructor
      · intro hev
        cases hd : decode_hex d with
        | none => simp [hasherRun, verify_file, hsome, hd] at hev
        | some e =>
          by_cases he : e = sha256 content
          · simp [hasherRun, verify_file, hsome, hd, hstream, he] at hev
          · exact ⟨e, rfl, he⟩
      · rintro ⟨e, hd, he⟩
        simp [hasherRun, verify_file, hsome, hd, hstream, he]
    · constructor
      · rintro ⟨msg, hev⟩
        cases hd : decode_hex d with
        | none => rfl
        | some e =>
          by_cases he : e = sha256 content
          · simp [hasherRun, verify_file, hsome, hd, hstream, he] at hev
          · simp [hasherRun, verify_file, hsome, hd, hstream, he] at hev
      · intro hd
        exact ⟨"Failed to read file from disk " ++ p ++ ": "
            ++ ("Failed to decode sha256 as hex: " ++ d),
          by simp [hasherRun, verify_file, hsome, hd]⟩
    · intro hc
      subst hc
      constructor
      · intro hev
        cases hd : decode_hex d with
        | none => simp [hasherRun, verify_file, hsome, hd] at hev
        | some e =>
          by_cases he : e = sha256 []
          · exact congrArg some he
          · simp [hasherRun, verify_file, hsome, hd, hstream, he] at hev
      · intro hd
        simp [hasherRun, verify_file, hsome, hd, hstream]

/-- Witness for C8: a zero-byte file checked against the hex encoding of
the SHA-256 digest of the empty string passes. -/
theorem c8_hasher_verifies_sha256_witness :
    ((fun _ => some ([] : List Nat)) "f" = some [] →
      ((hasherRun (fun _ => some []) "f"
          "e3b0c44298fc1c149afbf4c8996fb92427ae41e4649b934ca495991b7852b855"
        = .CompletedHashing (.Passed "f") ↔
        decode_hex "e3b0c44298fc1c149afbf4c8996fb92427ae41e4649b934ca495991b7852b855"
          = some (sha256 [])))) ∧
    hasherRun (fun _ => some []) "f"
        "e3b0c44298fc1c149afbf4c8996fb92427ae41e4649b934ca495991b7852b855"
      = .CompletedHashing (.Passed "f") := by
  constructor
  · intro hsome
    exact ((c8_hasher_verifies_sha256 (fun _ => some []) "f"
      "e3b0c44298fc1c149afbf4c8996fb92427ae41e4649b934ca495991b7852b855").2 [] hsome).2.2.2 rfl
  · rfl

/-- One character under Rust debug-style escaping: quote and backslash
are escaped, newline, tab and carriage return use their short forms, and
other control characters use the backslash-u form; printable characters
pass through. -/
def escapeDebugChar (c : Char) : List Char :=
  if c = '"' then ['\\', '"']
  else if c = '\\' then ['\\', '\\']
  else if c = '\n' then ['\\', 'n']
  else if c = '\t' then ['\\', 't']
  else if c = '\r' then ['\\', 'r']
  else if c.toNat < 32 ∨ c.toNat = 127 then
    if c.toNat < 16 then ['\\', 'u', '\x7b', Nat.digitChar c.toNat, '\x7d']
    else ['\\', 'u', '\x7b', Nat.digitChar (c.toNat / 16), Nat.digitChar (c.toNat % 16), '\x7d']
  else [c]

/-- A path rendered with Rust debug-style quoting, as the report format
string renders a PathBuf. -/
def rustDebugQuote (s : String) : String :=
  ⟨'"' :: ((s.data.map escapeDebugChar).flatten ++ ['"'])⟩

/-- The report-writing loops at the end of run (src/main.rs lines
341-365), as the list of lines reaching the sink: BTreeSet iteration
visits paths in sorted order, modelled by Finset.sort. -/
def writeReport (app : App) : List String :=
  (app.waiting_for_data.sort (· ≤ ·)).map (fun path => "[NO SHA256] " ++ rustDebugQuote path)
  ++ app.disk_errors.map (fun err => "[DISK ERROR] " ++ err)
  ++ (app.files_flagged.sort (· ≤ ·)).map (fun path => "[WRONG SHA256] " ++ rustDebugQuote path)

/-- C9: the final report is exactly the NO SHA256 lines for the paths in
waiting_for_data, then the DISK ERROR lines in collection order, then the
WRONG SHA256 lines for the paths of files_flagged in lexicographically
sorted order; both path sections enumerate their sets exactly, in sorted
order. -/
theorem c9_report_structure (app : App) :
    writeReport app
      = (app.waiting_for_data.sort (· ≤ ·)).map
          (fun path => "[NO SHA256] " ++ rustDebugQuote path)
        ++ app.disk_errors.map (fun err => "[DISK ERROR] " ++ err)
        ++ (app.files_flagged.sort (· ≤ ·)).map
          (fun path => "[WRONG SHA256] " ++ rustDebugQuote path) ∧
    List.Sorted (· ≤ ·) (app.files_flagged.sort (· ≤ ·)) ∧
    (∀ p, p ∈ app.files_flagged.sort (· ≤ ·) ↔ p ∈ app.files_flagged) ∧
    List.Sorted (· ≤ ·) (app.waiting_for_data.sort (· ≤ ·)) ∧
    (∀ p, p ∈ app.waiting_for_data.sort (· ≤ ·) ↔ p ∈ app.waiting_for_data) :=
  ⟨rfl, Finset.sort_sorted _ _, fun _ => Finset.mem_sort _,
   Finset.sort_sorted _ _, fun _ => Finset.mem_sort _⟩

/-- A filesystem subtree as the walkdir iterator traverses it in
pre-order: a node with its file type and named children (children are
only ever visited for directories), or an Err item yielded by the walk
for an unreadable entry. -/
inductive FsTree where
  | node (kind : FileType) (children : List (String × FsTree))
  | errNode (msg : String)

mutual

/-- The scan loop of spawn_scan together with read_disk (src/disk.rs
lines 45-64 and 102-135) on one yielded subtree.  Returns the events the
subtree contributes and whether skip_current_dir was called while the
listing of the PARENT directory was on top of the walkdir stack: walkdir
pushes the listing of a directory when it yields the directory entry, so
for an excluded directory the skip pops its own fresh listing (only the
subtree is skipped), while for an excluded non-directory it pops the
parent listing (the remaining not-yet-visited siblings are skipped). -/
def visitTree (excluded : List String) (path : String) : FsTree → List Event × Bool
  | .errNode msg => ([.DiskError ("Failed to access disk: " ++ msg)], false)
  | .node kind children =>
    if path ∈ excluded then
      ([], !kind.is_dir)
    else if kind.is_dir then
      ((.DiskPwd path) :: visitChildren excluded path children, false)
    else if kind.is_symlink then ([], false)
    else ([.DiskFile path], false)

/-- The walk over the listing of one directory: entries are visited in
order, and a skip_current_dir raised at this level abandons the remaining
entries of the listing. -/
def visitChildren (excluded : List String) (base : String) :
    List (String × FsTree) → List Event
  | [] => []
  | (name, child) :: rest =>
    let r := visitTree excluded (base ++ "/" ++ name) child
    if r.2 then r.1 else r.1 ++ visitChildren excluded base rest

end

/-- C10: when the walk yields an entry whose path is excluded but is not
a directory, the scanner still calls skip_current_dir: the entry itself
emits nothing and the remaining not-yet-visited entries of the directory
being traversed are skipped, producing no DiskFile, DiskPwd or DiskError
events. -/
theorem c10_excluded_nondir_skips_siblings (excluded : List String) (base name : String)
    (kind : FileType) (children : List (String × FsTree)) (rest : List (String × FsTree))
    (hexc : (base ++ "/" ++ name) ∈ excluded) (hkind : kind.is_dir = false) :
    visitTree excluded (base ++ "/" ++ name) (.node kind children) = ([], true) ∧
    visitChildren excluded base ((name, .node kind children) :: rest) = [] := by
  have h1 : visitTree excluded (base ++ "/" ++ name) (.node kind children) = ([], true) := by
    simp [visitTree, hexc, hkind]
  refine ⟨h1, ?_⟩
  simp [visitChildren, h1]

/-- Witness for C10: excluding the regular file under the scan root
suppresses the file and its unvisited sibling subtree, device node
included. -/
theorem c10_excluded_nondir_skips_siblings_witness :
    visitTree ["/root/home"] ("/root" ++ "/" ++ "home") (.node .regular []) = ([], true) ∧
    visitChildren ["/root/home"] "/root"
      (("home", .node .regular [])
        :: ("later", .node .dir [("dev", .node .blockDevice []), ("oops", .errNode "io")])
        :: []) = [] :=
  c10_excluded_nondir_skips_siblings ["/root/home"] "/root" "home" .regular []
    (("later", .node .dir [("dev", .node .blockDevice []), ("oops", .errNode "io")]) :: [])
    (by decide) rfl

/-- Whether an event is one of the two rendezvous events (TrustedFile or
DiskFile) that the order-independence property quantifies over. -/
def isTD : Event → Bool
  | .TrustedFile _ _ => true
  | .DiskFile _ => true
  | _ => false

/-- The path-digest pair of a TrustedFile event. -/
def tPair : Event → Option (String × String)
  | .TrustedFile p h => some (p, h)
  | _ => none

/-- The path of a DiskFile event. -/
def dPath : Event → Option String
  | .DiskFile p => some p
  | _ => none

/-- The path-digest pairs of the TrustedFile events of a list. -/
def tPairs (l : List Event) : List (String × String) := l.filterMap tPair

/-- The paths of the TrustedFile events of a list. -/
def tPaths (l : List Event) : List String := (tPairs l).map Prod.fst

/-- The paths of the DiskFile events of a list. -/
def dPaths (l : List Event) : List String := l.filterMap dPath

/-- Left fold of App::update over an event list. -/
def procEvents (l : List Event) (app : App) : App :=
  l.foldl (fun a e => (a.update e).1) app

/-- Resolution of the queued hash tasks against fixed file contents: each
queued pair is dispatched and its CompletedHashing event (Passed when the
contents match the digest, Flagged otherwise) is fed back through
App::update. -/
def resolveHashes (mtch : String → String → Bool) (app : App) : App :=
  app.waiting_for_hasher.foldl
    (fun a task => (a.update (.CompletedHashing
      (if mtch task.1 task.2 then .Passed task.1 else .Flagged task.1))).1)
    { app with waiting_for_hasher := [] }

/-- The observable outcome tuple of a run over an event list: process the
events from the fresh App, resolve all queued hashes, and read off
files_passed, files_flagged and waiting_for_data. -/
def finalTuple (mtch : String → String → Bool) (l : List Event) :
    Nat × Finset String × Finset String :=
  let a := resolveHashes mtch (procEvents l (App.new 0))
  (a.files_passed, a.files_flagged, a.waiting_for_data)

/-- The multiset of hash tasks a dup-free event list gives rise to: the
trusted pairs whose path also occurs as a DiskFile event. -/
def taskMS (l : List Event) : Multiset (String × String) :=
  Multiset.filter (fun q => q.1 ∈ dPaths l) (tPairs l : Multiset (String × String))

/-- Denotation of the final files_passed count. -/
def passedDen (mtch : String → String → Bool) (l : List Event) : Nat :=
  Multiset.countP (fun t => mtch t.1 t.2 = true) (taskMS l)

/-- Denotation of the final files_flagged set. -/
def flaggedDen (mtch : String → String → Bool) (l : List Event) : Finset String :=
  (((taskMS l).filter (fun t => ¬ mtch t.1 t.2 = true)).map Prod.fst).toFinset

/-- Denotation of the final waiting_for_data set: paths seen on disk but
never trusted. -/
def wfdDen (l : List Event) : Finset String :=
  (dPaths l).toFinset.filter (fun p => p ∉ tPaths l)

theorem tPairs_append (l₁ l₂ : List Event) : tPairs (l₁ ++ l₂) = tPairs l₁ ++ tPairs l₂ :=
  List.filterMap_append _ _ _

theorem dPaths_append (l₁ l₂ : List Event) : dPaths (l₁ ++ l₂) = dPaths l₁ ++ dPaths l₂ :=
  List.filterMap_append _ _ _

theorem tPaths_append (l₁ l₂ : List Event) : tPaths (l₁ ++ l₂) = tPaths l₁ ++ tPaths l₂ := by
  simp [tPaths, tPairs_append]

theorem procEvents_append_singleton (l : List Event) (e : Event) (a : App) :
    procEvents (l ++ [e]) a = ((procEvents l a).update e).1 := by
  simp [procEvents, List.foldl_append]

/-- In a list of pairs with pairwise-distinct first components, the count
of a pair with a given first component is determined by the unique member
carrying that component. -/
theorem count_of_nodup_fst (lp : List (String × String)) (p h g : String)
    (hn : (lp.map Prod.fst).Nodup) (hmem : (p, h) ∈ lp) :
    Multiset.count (p, g) (lp : Multiset (String × String)) = if g = h then 1 else 0 := by
  induction lp with
  | nil => simp at hmem
  | cons x xs ih =>
    simp only [List.map_cons, List.nodup_cons] at hn
    rw [show ((x :: xs : List (String × String)) : Multiset (String × String))
        = x ::ₘ (xs : Multiset (String × String)) from rfl, Multiset.count_cons]
    rcases List.mem_cons.mp hmem with hx | hx
    · subst hx
      have hnot : (p, g) ∉ xs := fun hmem2 => hn.1 (List.mem_map.mpr ⟨(p, g), hmem2, rfl⟩)
      rw [Multiset.count_eq_zero.mpr (by simpa using hnot)]
      by_cases hg : g = h
      · simp [hg]
      · simp [Prod.ext_iff, hg, Ne.symm hg]
    · have hxp : x.1 ≠ p := fun hx1 => hn.1 (List.mem_map.mpr ⟨(p, h), hx, hx1.symm⟩)
      rw [ih hn.2 hx]
      have hne1 : ¬(x = (p, g)) := fun hc => hxp (by rw [hc])
      have hne2 : ¬((p, g) = x) := fun hc => hne1 hc.symm
      simp [hne1, hne2]

theorem taskMS_append_trusted (l : List Event) (p h : String) :
    taskMS (l ++ [.TrustedFile p h])
      = taskMS l + (if p ∈ dPaths l then {(p, h)} else 0) := by
  unfold taskMS
  rw [tPairs_append, dPaths_append,
    show tPairs [Event.TrustedFile p h] = [(p, h)] from rfl,
    show dPaths [Event.TrustedFile p h] = [] from rfl, List.append_nil]
  rw [show ((tPairs l ++ [(p, h)] : List (String × String)) : Multiset (String × String))
      = (tPairs l : Multiset (String × String)) + ([(p, h)] : List (String × String)) from rfl]
  rw [Multiset.filter_add]
  congr 1
  rw [show (([(p, h)] : List (String × String)) : Multiset (String × String))
      = ({(p, h)} : Multiset (String × String)) from rfl]
  rw [Multiset.filter_singleton]
  simp

theorem taskMS_append_disk_untrusted (l : List Event) (p : String)
    (hpt : p ∉ tPaths l) :
    taskMS (l ++ [.DiskFile p]) = taskMS l := by
  unfold taskMS
  rw [tPairs_append, dPaths_append,
    show tPairs [Event.DiskFile p] = [] from rfl,
    show dPaths [Event.DiskFile p] = [p] from rfl, List.append_nil]
  apply Multiset.filter_congr
  intro x hx
  have hx1 : x.1 ∈ tPaths l := List.mem_map.mpr ⟨x, Multiset.mem_coe.mp hx, rfl⟩
  constructor
  · intro hmem
    rcases List.mem_append.mp hmem with hmem | hmem
    · exact hmem
    · exact absurd (List.mem_singleton.mp hmem ▸ hx1) hpt
  · intro hmem
    exact List.mem_append.mpr (Or.inl hmem)

theorem taskMS_append_disk_trusted (l : List Event) (p h : String)
    (hn : (tPaths l).Nodup) (hmem : (p, h) ∈ tPairs l) (hpd : p ∉ dPaths l) :
    taskMS (l ++ [.DiskFile p]) = taskMS l + {(p, h)} := by
  unfold taskMS
  rw [tPairs_append, dPaths_append,
    show tPairs [Event.DiskFile p] = [] from rfl,
    show dPaths [Event.DiskFile p] = [p] from rfl, List.append_nil]
  ext x
  rw [Multiset.count_add, Multiset.count_filter, Multiset.count_filter]
  obtain ⟨x1, x2⟩ := x
  by_cases hx1 : x1 = p
  · subst hx1
    rw [if_pos (by simp : (x1, x2).1 ∈ dPaths l ++ [x1]), if_neg (by simpa using hpd)]
    rw [count_of_nodup_fst (tPairs l) x1 h x2 hn hmem]
    rw [Multiset.count_singleton]
    by_cases hx2 : x2 = h
    · simp [hx2]
    · simp [Prod.ext_iff, hx2]
  · have hcond : ((x1, x2).1 ∈ dPaths l ++ [p]) ↔ ((x1, x2).1 ∈ dPaths l) := by
      simp [hx1]
    have hne : ¬((x1, x2) = (p, h)) := by simp [Prod.ext_iff, hx1]
    rw [if_congr hcond rfl rfl, Multiset.count_singleton, if_neg hne, add_zero]

theorem mem_tPaths_iff (l : List Event) (p : String) :
    p ∈ tPaths l ↔ ∃ h, (p, h) ∈ tPairs l := by
  unfold tPaths
  constructor
  · intro hm
    obtain ⟨⟨q, g⟩, hin, rfl⟩ := List.mem_map.mp hm
    exact ⟨g, hin⟩
  · rintro ⟨g, hin⟩
    exact List.mem_map.mpr ⟨(p, g), hin, rfl⟩

/-- Consing a fresh key onto the trusted map extends the lookup
characterization by that pair. -/
theorem lookup_cons_char (tr : List (String × String)) (tp : List (String × String))
    (p h : String)
    (cl : ∀ q g, lookupKey q tr = some g ↔ (q, g) ∈ tp)
    (hpT : ∀ g, (p, g) ∉ tp) :
    ∀ q g, lookupKey q ((p, h) :: tr) = some g ↔ (q, g) ∈ tp ++ [(p, h)] := by
  intro q g
  rw [show lookupKey q ((p, h) :: tr) = if p = q then some h else lookupKey q tr from rfl]
  by_cases hq : p = q
  · subst hq
    rw [if_pos rfl]
    constructor
    · intro hg
      injection hg with hg
      subst hg
      exact List.mem_append.mpr (Or.inr (List.mem_singleton.mpr rfl))
    · intro hmem
      rcases List.mem_append.mp hmem with hmem | hmem
      · exact absurd hmem (hpT g)
      · simp only [List.mem_singleton, Prod.mk.injEq] at hmem
        rw [hmem.2]
  · rw [if_neg hq, cl q g]
    constructor
    · intro hm
      exact List.mem_append.mpr (Or.inl hm)
    · intro hm
      rcases List.mem_append.mp hm with hm | hm
      · exact hm
      · simp only [List.mem_singleton, Prod.mk.injEq] at hm
        exact absurd hm.1.symm hq

/-- Characterization of the coordinator state after processing a
duplicate-free list of TrustedFile and DiskFile events from a fresh App:
the trusted map holds exactly the trusted pairs, waiting_for_data holds
exactly the disk paths that were never trusted, the hash-task queue holds
(as a multiset) exactly the trusted pairs whose path was also seen on
disk, and no hashing results have been counted yet. -/
theorem procEvents_char (l : List Event)
    (hTD : ∀ e ∈ l, isTD e = true)
    (hT : (tPaths l).Nodup) (hD : (dPaths l).Nodup) :
    (∀ p h, lookupKey p (procEvents l (App.new 0)).trusted_hashes = some h ↔ (p, h) ∈ tPairs l)
    ∧ (∀ p, p ∈ (procEvents l (App.new 0)).waiting_for_data ↔ (p ∈ dPaths l ∧ p ∉ tPaths l))
    ∧ ((procEvents l (App.new 0)).waiting_for_hasher : Multiset (String × String)) = taskMS l
    ∧ (procEvents l (App.new 0)).files_passed = 0
    ∧ (procEvents l (App.new 0)).files_flagged = ∅ := by
  induction l using List.reverseRecOn with
  | nil =>
    refine ⟨?_, ?_, ?_, rfl, rfl⟩
    · intro p h
      simp [procEvents, App.new, lookupKey, tPairs, tPair]
    · intro p
      simp [procEvents, App.new, dPaths, dPath]
    · simp [procEvents, App.new, taskMS, tPairs, tPair]
  | append_singleton l e ih =>
    have hTD' : ∀ e' ∈ l, isTD e' = true :=
      fun e' he' => hTD e' (List.mem_append.mpr (Or.inl he'))
    have hTDe : isTD e = true :=
      hTD e (List.mem_append.mpr (Or.inr (List.mem_singleton.mpr rfl)))
    rw [tPaths_append] at hT
    rw [dPaths_append] at hD
    obtain ⟨hT1, hT2, hTdisj⟩ := List.nodup_append.mp hT
    obtain ⟨hD1, hD2, hDdisj⟩ := List.nodup_append.mp hD
    obtain ⟨cl, cw, cq, cp, cf⟩ := ih hTD' hT1 hD1
    rw [procEvents_append_singleton]
    set s := procEvents l (App.new 0) with hs
    cases e with
    | PkgQueued => simp [isTD] at hTDe
    | PkgCompleted => simp [isTD] at hTDe
    | DiskPwd p => simp [isTD] at hTDe
    | DiskError err => simp [isTD] at hTDe
    | CompletedListInstalled => simp [isTD] at hTDe
    | CompletedDiskScan => simp [isTD] at hTDe
    | AvailableHasher b => simp [isTD] at hTDe
    | CompletedHashing hv => simp [isTD] at hTDe
    | TrustedFile p h =>
      have hpT : p ∉ tPaths l := by
        intro hp
        exact hTdisj hp (by simp [tPaths, tPairs, tPair])
      have hpT' : ∀ g, (p, g) ∉ tPairs l :=
        fun g hg => hpT ((mem_tPaths_iff l p).mpr ⟨g, hg⟩)
      have hlk : lookupKey p s.trusted_hashes = none := by
        cases hl : lookupKey p s.trusted_hashes with
        | none => rfl
        | some g => exact absurd ((mem_tPaths_iff l p).mpr ⟨g, (cl p g).mp hl⟩) hpT
      by_cases hw : p ∈ s.waiting_for_data
      · have hpD : p ∈ dPaths l := ((cw p).mp hw).1
        have hupd : (s.update (.TrustedFile p h)).1
            = { s with
                waiting_for_data := s.waiting_for_data.erase p,
                waiting_for_hasher := s.waiting_for_hasher ++ [(p, h)],
                trusted_hashes := (p, h) :: s.trusted_hashes } := by
          simp [App.update, hlk, hw]
        rw [hupd]
        refine ⟨?_, ?_, ?_, cp, cf⟩
        · intro q g
          rw [tPairs_append, show tPairs [Event.TrustedFile p h] = [(p, h)] from rfl]
          exact lookup_cons_char s.trusted_hashes (tPairs l) p h cl hpT' q g
        · intro q
          rw [Finset.mem_erase]
          rw [show (q ∈ s.waiting_for_data) ↔ _ from cw q]
          rw [dPaths_append, tPaths_append,
            show tPaths [Event.TrustedFile p h] = [p] from rfl,
            show dPaths [Event.TrustedFile p h] = [] from rfl, List.append_nil]
          simp only [List.mem_append, List.mem_singleton]
          constructor
          · rintro ⟨hqp, hqd, hqt⟩
            exact ⟨hqd, by simp [hqt, hqp]⟩
          · rintro ⟨hqd, hqt⟩
            push_neg at hqt
            exact ⟨hqt.2, hqd, hqt.1⟩
        · rw [taskMS_append_trusted, if_pos hpD, ← cq]
          rfl
      · have hpD : p ∉ dPaths l := fun hpd => hw ((cw p).mpr ⟨hpd, hpT⟩)
        have hupd : (s.update (.TrustedFile p h)).1
            = { s with trusted_hashes := (p, h) :: s.trusted_hashes } := by
          simp [App.update, hlk, hw]
        rw [hupd]
        refine ⟨?_, ?_, ?_, cp, cf⟩
        · intro q g
          rw [tPairs_append, show tPairs [Event.TrustedFile p h] = [(p, h)] from rfl]
          exact lookup_cons_char s.trusted_hashes (tPairs l) p h cl hpT' q g
        · intro q
          rw [show (q ∈ s.waiting_for_data) ↔ _ from cw q]
          rw [dPaths_append, tPaths_append,
            show tPaths [Event.TrustedFile p h] = [p] from rfl,
            show dPaths [Event.TrustedFile p h] = [] from rfl, List.append_nil]
          simp only [List.mem_append, List.mem_singleton]
          constructor
          · rintro ⟨hqd, hqt⟩
            refine ⟨hqd, ?_⟩
            push_neg
            exact ⟨hqt, fun hqp => hpD (hqp ▸ hqd)⟩
          · rintro ⟨hqd, hqt⟩
            push_neg at hqt
            exact ⟨hqd, hqt.1⟩
        · rw [taskMS_append_trusted, if_neg hpD, add_zero, ← cq]
    | DiskFile p =>
      have hpD : p ∉ dPaths l := by
        intro hp
        exact hDdisj hp (by simp [dPaths, dPath])
      cases hlk : lookupKey p s.trusted_hashes with
      | some h =>
        have hmemT : (p, h) ∈ tPairs l := (cl p h).mp hlk
        have hpT : p ∈ tPaths l := (mem_tPaths_iff l p).mpr ⟨h, hmemT⟩
        have hupd : (s.update (.DiskFile p)).1
            = { s with waiting_for_hasher := s.waiting_for_hasher ++ [(p, h)] } := by
          simp [App.update, hlk]
        rw [hupd]
        refine ⟨?_, ?_, ?_, cp, cf⟩
        · intro q g
          rw [tPairs_append, show tPairs [Event.DiskFile p] = [] from rfl, List.append_nil]
          exact cl q g
        · intro q
          rw [show (q ∈ s.waiting_for_data) ↔ _ from cw q]
          rw [dPaths_append, tPaths_append,
            show tPaths [Event.DiskFile p] = [] from rfl,
            show dPaths [Event.DiskFile p] = [p] from rfl, List.append_nil]
          simp only [List.mem_append, List.mem_singleton]
          constructor
          · rintro ⟨hqd, hqt⟩
            exact ⟨Or.inl hqd, hqt⟩
          · rintro ⟨hqd | hqd, hqt⟩
            · exact ⟨hqd, hqt⟩
            · exact absurd (hqd ▸ hpT) hqt
        · rw [taskMS_append_disk_trusted l p h hT1 hmemT hpD, ← cq]
          rfl
      | none =>
        have hpT : p ∉ tPaths l := by
          intro hp
          obtain ⟨g, hg⟩ := (mem_tPaths_iff l p).mp hp
          rw [← cl p g] at hg
          rw [hlk] at hg
          exact Option.noConfusion hg
        have hupd : (s.update (.DiskFile p)).1
            = { s with waiting_for_data := insert p s.waiting_for_data } := by
          simp [App.update, hlk]
        rw [hupd]
        refine ⟨?_, ?_, ?_, cp, cf⟩
        · intro q g
          rw [tPairs_append, show tPairs [Event.DiskFile p] = [] from rfl, List.append_nil]
          exact cl q g
        · intro q
          rw [Finset.mem_insert]
          rw [show (q ∈ s.waiting_for_data) ↔ _ from cw q]
          rw [dPaths_append, tPaths_append,
            show tPaths [Event.DiskFile p] = [] from rfl,
            show dPaths [Event.DiskFile p] = [p] from rfl, List.append_nil]
          simp only [List.mem_append, List.mem_singleton]
          constructor
          · rintro (rfl | ⟨hqd, hqt⟩)
            · exact ⟨Or.inr rfl, hpT⟩
            · exact ⟨Or.inl hqd, hqt⟩
          · rintro ⟨hqd | hqd, hqt⟩
            · exact Or.inr ⟨hqd, hqt⟩
            · exact Or.inl hqd
        · rw [taskMS_append_disk_untrusted l p hpT, ← cq]

/-- Effect of feeding a list of hash results through App::update: passed
counts the matching tasks, flagged collects the paths of the mismatching
tasks, and waiting_for_data is untouched. -/
theorem resolve_foldl_spec (mtch : String → String → Bool)
    (q : List (String × String)) (a : App) :
    ((q.foldl (fun a task => (a.update (.CompletedHashing
        (if mtch task.1 task.2 then .Passed task.1 else .Flagged task.1))).1) a).files_passed
      = a.files_passed + q.countP (fun t => mtch t.1 t.2)) ∧
    ((q.foldl (fun a task => (a.update (.CompletedHashing
        (if mtch task.1 task.2 then .Passed task.1 else .Flagged task.1))).1) a).files_flagged
      = a.files_flagged ∪ ((q.filter (fun t => !(mtch t.1 t.2))).map Prod.fst).toFinset) ∧
    ((q.foldl (fun a task => (a.update (.CompletedHashing
        (if mtch task.1 task.2 then .Passed task.1 else .Flagged task.1))).1) a).waiting_for_data
      = a.waiting_for_data) := by
  induction q generalizing a with
  | nil => simp
  | cons t ts ih =>
    by_cases hm : mtch t.1 t.2
    · have hstep : ((a.update (.CompletedHashing
          (if mtch t.1 t.2 then .Passed t.1 else .Flagged t.1))).1)
          = { a with files_passed := a.files_passed + 1 } := by
        simp [App.update, hm]
      obtain ⟨ih1, ih2, ih3⟩ := ih { a with files_passed := a.files_passed + 1 }
      simp only [List.foldl_cons, hstep]
      refine ⟨?_, ?_, ih3⟩
      · rw [ih1, List.countP_cons]
        simp [hm]
        omega
      · rw [ih2, List.filter_cons]
        simp [hm]
    · have hstep : ((a.update (.CompletedHashing
          (if mtch t.1 t.2 then .Passed t.1 else .Flagged t.1))).1)
          = { a with files_flagged := insert t.1 a.files_flagged } := by
        simp [App.update, hm]
      obtain ⟨ih1, ih2, ih3⟩ := ih { a with files_flagged := insert t.1 a.files_flagged }
      simp only [List.foldl_cons, hstep]
      refine ⟨?_, ?_, ih3⟩
      · rw [ih1, List.countP_cons]
        simp [hm]
      · rw [ih2, List.filter_cons]
        simp only [hm, Bool.not_false, if_pos, List.map_cons, List.toFinset_cons]
        rw [Finset.insert_union, Finset.union_insert]

/-- The resolution step in terms of the App fields. -/
theorem resolveHashes_spec (mtch : String → String → Bool) (app : App) :
    (resolveHashes mtch app).files_passed
      = app.files_passed + app.waiting_for_hasher.countP (fun t => mtch t.1 t.2) ∧
    (resolveHashes mtch app).files_flagged
      = app.files_flagged
        ∪ ((app.waiting_for_hasher.filter (fun t => !(mtch t.1 t.2))).map Prod.fst).toFinset ∧
    (resolveHashes mtch app).waiting_for_data = app.waiting_for_data := by
  unfold resolveHashes
  have h := resolve_foldl_spec mtch app.waiting_for_hasher { app with waiting_for_hasher := [] }
  exact h

/-- The final tuple of a duplicate-free list of rendezvous events is the
order-insensitive denotation computed from the multiset of events. -/
theorem finalTuple_eq_den (mtch : String → String → Bool) (l : List Event)
    (hTD : ∀ e ∈ l, isTD e = true)
    (hT : (tPaths l).Nodup) (hD : (dPaths l).Nodup) :
    finalTuple mtch l = (passedDen mtch l, flaggedDen mtch l, wfdDen l) := by
  obtain ⟨cl, cw, cq, cp, cf⟩ := procEvents_char l hTD hT hD
  obtain ⟨r1, r2, r3⟩ := resolveHashes_spec mtch (procEvents l (App.new 0))
  unfold finalTuple
  refine Prod.ext ?_ (Prod.ext ?_ ?_)
  · show (resolveHashes mtch (procEvents l (App.new 0))).files_passed = passedDen mtch l
    rw [r1, cp, Nat.zero_add]
    unfold passedDen
    rw [← cq, Multiset.coe_countP]
    congr 1
    funext t
    cases hmt : mtch t.1 t.2 <;> simp [hmt]
  · show (resolveHashes mtch (procEvents l (App.new 0))).files_flagged = flaggedDen mtch l
    rw [r2, cf, Finset.empty_union]
    unfold flaggedDen
    rw [← cq, Multiset.filter_coe, Multiset.map_coe, List.toFinset_coe]
    apply congrArg List.toFinset
    apply congrArg (List.map Prod.fst)
    apply List.filter_congr
    intro t ht
    cases hmt : mtch t.1 t.2 <;> simp [hmt]
  · show (resolveHashes mtch (procEvents l (App.new 0))).waiting_for_data = wfdDen l
    rw [r3]
    apply Finset.ext
    intro p
    rw [cw p]
    unfold wfdDen
    simp [List.mem_toFinset]

/-- The task multiset does not depend on the order of the event list. -/
theorem taskMS_perm (l₁ l₂ : List Event) (hp : l₁.Perm l₂) : taskMS l₁ = taskMS l₂ := by
  unfold taskMS
  have hpairs : (tPairs l₁ : Multiset (String × String)) = (tPairs l₂ : Multiset (String × String)) :=
    Multiset.coe_eq_coe.mpr (hp.filterMap tPair)
  have hdp : ∀ x : String × String, x.1 ∈ dPaths l₁ ↔ x.1 ∈ dPaths l₂ :=
    fun x => (hp.filterMap dPath).mem_iff
  rw [hpairs]
  exact Multiset.filter_congr fun x _ => hdp x

/-- The waiting-for-data denotation does not depend on the order of the
event list. -/
theorem wfdDen_perm (l₁ l₂ : List Event) (hp : l₁.Perm l₂) : wfdDen l₁ = wfdDen l₂ := by
  unfold wfdDen dPaths tPaths tPairs
  apply Finset.ext
  intro p
  simp only [Finset.mem_filter, List.mem_toFinset]
  rw [(hp.filterMap dPath).mem_iff]
  constructor
  · rintro ⟨h1, h2⟩
    exact ⟨h1, fun hc => h2 (((hp.filterMap tPair).map Prod.fst).mem_iff.mpr hc)⟩
  · rintro ⟨h1, h2⟩
    exact ⟨h1, fun hc => h2 (((hp.filterMap tPair).map Prod.fst).mem_iff.mp hc)⟩

/-- C1 counterexample: two interleavings of the same multiset of
TrustedFile and DiskFile events (spec scenario 6: two packages claim the
same path with different digests) give different final tuples - whichever
trusted digest arrives first wins, so the duplicated path is Passed in
one order and Flagged in the other.  Order independence therefore fails
for general multisets. -/
theorem c1_counterexample :
    ([Event.TrustedFile "p" "h1", Event.TrustedFile "p" "h2", Event.DiskFile "p"].Perm
      [Event.TrustedFile "p" "h2", Event.TrustedFile "p" "h1", Event.DiskFile "p"]) ∧
    (∀ e ∈ [Event.TrustedFile "p" "h1", Event.TrustedFile "p" "h2", Event.DiskFile "p"],
      isTD e = true) ∧
    finalTuple (fun _ h => h == "h1")
        [Event.TrustedFile "p" "h1", Event.TrustedFile "p" "h2", Event.DiskFile "p"]
      ≠ finalTuple (fun _ h => h == "h1")
        [Event.TrustedFile "p" "h2", Event.TrustedFile "p" "h1", Event.DiskFile "p"] :=
  ⟨by decide, by decide, by decide⟩

/-- C1 amended: for multisets of TrustedFile and DiskFile events in which
every path occurs at most once as a TrustedFile and at most once as a
DiskFile, the final (files_passed, files_flagged, waiting_for_data) tuple
after processing any interleaving (with hashing resolved against fixed
file contents) is the same; in particular App::update commutes between
the trusted-then-disk and disk-then-trusted orders for each path. -/
theorem c1_order_independence (mtch : String → String → Bool) (l₁ l₂ : List Event)
    (hTD : ∀ e ∈ l₁, isTD e = true)
    (hT : (tPaths l₁).Nodup) (hD : (dPaths l₁).Nodup)
    (hp : l₁.Perm l₂) :
    finalTuple mtch l₁ = finalTuple mtch l₂ := by
  have hTD₂ : ∀ e ∈ l₂, isTD e = true := fun e he => hTD e (hp.mem_iff.mpr he)
  have hT₂ : (tPaths l₂).Nodup := by
    unfold tPaths tPairs
    unfold tPaths tPairs at hT
    exact ((hp.filterMap tPair).map Prod.fst).nodup_iff.mp hT
  have hD₂ : (dPaths l₂).Nodup := by
    unfold dPaths
    unfold dPaths at hD
    exact (hp.filterMap dPath).nodup_iff.mp hD
  rw [finalTuple_eq_den mtch l₁ hTD hT hD, finalTuple_eq_den mtch l₂ hTD₂ hT₂ hD₂]
  rw [show passedDen mtch l₁ = passedDen mtch l₂ by
    unfold passedDen
    rw [taskMS_perm l₁ l₂ hp]]
  rw [show flaggedDen mtch l₁ = flaggedDen mtch l₂ by
    unfold flaggedDen
    rw [taskMS_perm l₁ l₂ hp]]
  rw [wfdDen_perm l₁ l₂ hp]

/-- Witness for C1: the trusted-then-disk and disk-then-trusted orders of
one path give the same final tuple. -/
theorem c1_order_independence_witness :
    finalTuple (fun _ _ => true) [Event.TrustedFile "a" "h", Event.DiskFile "a"]
      = finalTuple (fun _ _ => true) [Event.DiskFile "a", Event.TrustedFile "a" "h"] :=
  c1_order_independence (fun _ _ => true)
    [Event.TrustedFile "a" "h", Event.DiskFile "a"]
    [Event.DiskFile "a", Event.TrustedFile "a" "h"]
    (by decide) (by decide) (by decide) (by decide)

end FsCmp
